import Mathlib

/-!
# ArtCollector: `src/components/Feature.js`

A shallow embedding of the two React components of `Feature.js`
(`Searchable` and `Feature`) and of the click handler of `Searchable`.

* JavaScript values are the inductive type `JSVal`; a `throw` is the
  `error` branch of `Except JSVal`.
* A React element tree is the inductive type `Node`; JSX fragments, arrays
  produced by `.map` and `null` children are kept in the tree and removed
  by `flatten`, which is what React does when it lays out the children of
  a host element.
* The asynchronous click handler is modelled by the sequence of effects it
  performs (`Effect`), given how the promise returned by
  `fetchQueryResultsFromTermAndValue` settles (`Settlement`).
-/

namespace ArtCollector

/-! ## JavaScript values -/

/-- JavaScript values that can reach the components. Numbers are the
integers (no `NaN`, no fractions); strings are sequences of Unicode
characters. -/
inductive JSVal where
  | undefined : JSVal
  | null : JSVal
  | bool (b : Bool) : JSVal
  | num (n : Int) : JSVal
  | str (s : String) : JSVal
  | arr (items : List JSVal) : JSVal
  | obj (props : List (String × JSVal)) : JSVal

/-- JavaScript `ToBoolean`: `undefined`, `null`, `false`, `0` and `""` are
falsy, every other value (every array and object included) is truthy. -/
def truthy : JSVal → Bool
  | .undefined => false
  | .null => false
  | .bool b => b
  | .num n => n != 0
  | .str s => s.data != []
  | .arr _ => true
  | .obj _ => true

/-- The value thrown by the engine on an illegal property access or call. -/
def typeError (msg : String) : JSVal :=
  .obj [("name", .str "TypeError"), ("message", .str msg)]

/-- Property read `v[k]` (also written `v.k`): throws a `TypeError` on
`undefined` and `null`, reads an own property of an object (the first
binding of the key), and is `undefined` otherwise. None of the property
names read by `Feature.js` is defined on the prototypes of booleans,
numbers, strings or arrays. -/
def getProp (v : JSVal) (k : String) : Except JSVal JSVal :=
  match v with
  | .undefined => .error (typeError ("Cannot read properties of undefined (reading " ++ k ++ ")"))
  | .null => .error (typeError ("Cannot read properties of null (reading " ++ k ++ ")"))
  | .obj props => .ok ((props.lookup k).getD .undefined)
  | _ => .ok .undefined

/-- The value of `v[k]` when the read does not throw (`undefined` stands
in where it does). -/
def peek (v : JSVal) (k : String) : JSVal :=
  match v with
  | .obj props => (props.lookup k).getD .undefined
  | _ => .undefined

/-! ## `String.prototype.replaceAll` -/

/-- Scan of `replaceAll` for a non-empty pattern: `skip` counts the
characters of the last match that are still to be consumed. -/
def replaceAllGo (pat rep : List Char) : Nat → List Char → List Char
  | _, [] => []
  | skip + 1, _ :: cs => replaceAllGo pat rep skip cs
  | 0, c :: cs =>
    if pat.isPrefixOf (c :: cs) then rep ++ replaceAllGo pat rep (pat.length - 1) cs
    else c :: replaceAllGo pat rep 0 cs

/-- The method `s.replaceAll(pat, rep)` for string arguments: every
occurrence of `pat`, found left to right without overlap, is replaced by
`rep` (taken literally: no `$` pattern); the empty pattern matches before
every character and at the end. -/
def replaceAll (s pat rep : String) : String :=
  match pat.data with
  | [] => ⟨rep.data ++ s.data.flatMap (fun c => c :: rep.data)⟩
  | p :: ps => ⟨replaceAllGo (p :: ps) rep.data 0 s.data⟩

/-- The method call `v.replaceAll(pat, rep)` on an arbitrary value: only
strings have the method. -/
def callReplaceAll (v : JSVal) (pat rep : String) : Except JSVal JSVal :=
  match v with
  | .str s => .ok (.str (replaceAll s pat rep))
  | .undefined => .error (typeError "Cannot read properties of undefined (reading replaceAll)")
  | .null => .error (typeError "Cannot read properties of null (reading replaceAll)")
  | _ => .error (typeError "searchValue.replaceAll is not a function")

/-- The spec's `normalize`: every space character becomes a hyphen, every
other character is unchanged. -/
def normalize (s : String) : String :=
  ⟨s.data.map (fun c => if c = ' ' then '-' else c)⟩

/-! ## The click handler of `Searchable` -/

/-- How the promise returned by `fetchQueryResultsFromTermAndValue` ends. -/
inductive Settlement where
  | resolved (r : JSVal) : Settlement
  | rejected (e : JSVal) : Settlement
  | pending : Settlement

/-- The observable steps of one activation of the click handler. The two
setters, `event.preventDefault` and `console.error` are recorded as calls
that return normally. -/
inductive Effect where
  | preventDefault : Effect
  | setIsLoading (b : Bool) : Effect
  | fetchCall (searchTerm value : JSVal) : Effect
  | fetchSettled (s : Settlement) : Effect
  | setSearchResults (r : JSVal) : Effect
  | consoleError (e : JSVal) : Effect

/-- How a block of the handler ends. -/
inductive Completion where
  | normal : Completion
  | threw (e : JSVal) : Completion
  | suspended : Completion

/-- The `try` block of the handler (lines 46-50), given how the promise of
the external call ends: the argument `searchValue.replaceAll(" ", "-")` is
evaluated, the external function is called, its promise is awaited and, if
it resolves, the response goes to `setSearchResults`. -/
def onClickTry (outcome : Settlement) (searchTerm searchValue : JSVal) :
    List Effect × Completion :=
  match callReplaceAll searchValue " " "-" with
  | .error e => ([], .threw e)
  | .ok value =>
    match outcome with
    | .resolved response =>
      ([.fetchCall searchTerm value, .fetchSettled (.resolved response),
        .setSearchResults response], .normal)
    | .rejected err =>
      ([.fetchCall searchTerm value, .fetchSettled (.rejected err)], .threw err)
    | .pending => ([.fetchCall searchTerm value], .suspended)

/-- The `onClick` handler of `Searchable` (lines 42-56): the effects of one
activation and how the handler ends. `catch` logs what the `try` block
threw; `finally` runs once the `try`/`catch` is over, which never happens
while the awaited promise is pending. -/
def onClick (outcome : Settlement) (searchTerm searchValue : JSVal) :
    List Effect × Completion :=
  let start := [Effect.preventDefault, Effect.setIsLoading true]
  match onClickTry outcome searchTerm searchValue with
  | (t, .normal) => (start ++ t ++ [Effect.setIsLoading false], .normal)
  | (t, .threw err) =>
    (start ++ t ++ [Effect.consoleError err] ++ [Effect.setIsLoading false], .normal)
  | (t, .suspended) => (start ++ t, .suspended)

/-- The arguments of the calls of `setIsLoading` in a trace, in order. -/
def loadingCalls (t : List Effect) : List Bool :=
  t.filterMap (fun ef => match ef with
    | .setIsLoading b => some b
    | _ => none)

/-- The arguments of the calls of `setSearchResults` in a trace, in order. -/
def searchResultsCalls (t : List Effect) : List JSVal :=
  t.filterMap (fun ef => match ef with
    | .setSearchResults r => some r
    | _ => none)

/-- The argument pairs of the invocations of the external call in a trace. -/
def fetchCalls (t : List Effect) : List (JSVal × JSVal) :=
  t.filterMap (fun ef => match ef with
    | .fetchCall a b => some (a, b)
    | _ => none)

/-- The values reported to `console.error` in a trace, in order. -/
def errorLogs (t : List Effect) : List JSVal :=
  t.filterMap (fun ef => match ef with
    | .consoleError e => some e
    | _ => none)

/-- The ordering of section 4.1: in the trace `t` there is one call
`setIsLoading(true)` at `i`, one invocation of the external call at `j`,
one settlement at `k` and one call `setIsLoading(false)` at `l`, with
`i < j < k < l`, and no other call of `setIsLoading`. -/
def LoadingBracketsCall (t : List Effect) : Prop :=
  ∃ i j k l : Nat, i < j ∧ j < k ∧ k < l ∧
    t[i]? = some (.setIsLoading true) ∧
    (∃ a b, t[j]? = some (.fetchCall a b)) ∧
    (∃ s, t[k]? = some (.fetchSettled s)) ∧
    t[l]? = some (.setIsLoading false) ∧
    (∀ n b, t[n]? = some (.setIsLoading b) → (n = i ∧ b = true) ∨ (n = l ∧ b = false)) ∧
    (∀ n a b, t[n]? = some (.fetchCall a b) → n = j) ∧
    (∀ n s, t[n]? = some (.fetchSettled s) → n = k)

/-- Modelled from the spec: the parent-owned state of section 2, which is
written only through the two setters handed to the components. -/
structure ParentState where
  isLoading : Bool
  searchResults : JSVal

/-- Modelled from the spec: what each effect of the handler does to the
parent-owned state; only the two setters write to it. -/
def applyEffect (st : ParentState) : Effect → ParentState
  | .setIsLoading b => { st with isLoading := b }
  | .setSearchResults r => { st with searchResults := r }
  | _ => st

/-- The parent-owned state after a trace. -/
def applyTrace (st : ParentState) (t : List Effect) : ParentState :=
  t.foldl applyEffect st

/-! ## Conversion to a string -/

mutual
/-- The abstract operation `ToString` on the values of `JSVal`, as used by
a template literal. An array is joined with commas, `undefined` and `null`
entries giving the empty string. An object inherits
`Object.prototype.toString` and gives "[object Object]", unless it has an
own property `toString`: no value of `JSVal` is callable, so neither that
property nor `valueOf` yields a primitive and a `TypeError` is thrown. A
number is written with its decimal digits. -/
def toStringJS : JSVal → Except JSVal String
  | .undefined => .ok "undefined"
  | .null => .ok "null"
  | .bool b => .ok (if b then "true" else "false")
  | .num n => .ok (toString n)
  | .str s => .ok s
  | .arr items =>
    match elementStrings items with
    | .ok parts => .ok (",".intercalate parts)
    | .error e => .error e
  | .obj props =>
    if props.any (fun p => p.1 == "toString") then
      .error (typeError "Cannot convert object to primitive value")
    else .ok "[object Object]"
/-- The strings joined by `Array.prototype.join`. -/
def elementStrings : List JSVal → Except JSVal (List String)
  | [] => .ok []
  | .undefined :: xs =>
    match elementStrings xs with
    | .ok rest => .ok ("" :: rest)
    | .error e => .error e
  | .null :: xs =>
    match elementStrings xs with
    | .ok rest => .ok ("" :: rest)
    | .error e => .error e
  | x :: xs =>
    match toStringJS x with
    | .error e => .error e
    | .ok a =>
      match elementStrings xs with
      | .ok rest => .ok (a :: rest)
      | .error e => .error e
end

/-- The key `ind + v` of a React element, as the string React keeps. The
operator `+` concatenates when `v` is a string or converts to one (arrays
and objects, whose conversion can throw) and adds numbers otherwise
(`undefined` gives `NaN`, `null` counts as 0, `true` as 1). -/
def addIndex (ind : Nat) (v : JSVal) : Except JSVal String :=
  match v with
  | .str s => .ok (toString ind ++ s)
  | .undefined => .ok "NaN"
  | .null => .ok (toString ind)
  | .bool b => .ok (toString (ind + (if b then 1 else 0)))
  | .num n => .ok (toString ((ind : Int) + n))
  | .arr items =>
    match toStringJS (.arr items) with
    | .ok s => .ok (toString ind ++ s)
    | .error e => .error e
  | .obj props =>
    match toStringJS (.obj props) with
    | .ok s => .ok (toString ind ++ s)
    | .error e => .error e

/-! ## React element trees -/

/-- The value of a prop of a host element: a JavaScript value, or the
click handler closure created by `Searchable`, which captures the four
props of the component. -/
inductive PropVal (F : Type) where
  | val (v : JSVal) : PropVal F
  | handler (searchTerm searchValue : JSVal) (setIsLoading setSearchResults : F) : PropVal F

/-- React element trees, over a type `F` of function values (the setters).
`keyed key node` is the element `node` created with the prop `key`. -/
inductive Node (F : Type) where
  | element (tag : String) (props : List (String × PropVal F)) (children : List (Node F)) : Node F
  | searchable (searchValue searchTerm : JSVal) (setIsLoading setSearchResults : F) : Node F
  | fragment (children : List (Node F)) : Node F
  | keyed (key : String) (node : Node F) : Node F
  | array (items : List (Node F)) : Node F
  | value (v : JSVal) : Node F

/-- Children that React renders as nothing: `undefined`, `null`, `true`
and `false`. -/
def isEmptyChild : JSVal → Bool
  | .undefined => true
  | .null => true
  | .bool _ => true
  | _ => false

mutual
/-- The sequence of rendered nodes a child stands for: fragments and
arrays are spliced in place, keys are dropped and empty children vanish.
A value that is a string or a number is a text node; React lays an array
value out as further children and rejects a plain object, and such values
are left in place here. -/
def flatten {F : Type} : Node F → List (Node F)
  | .fragment cs => flattenList cs
  | .array cs => flattenList cs
  | .keyed _ n => flatten n
  | .value v => if isEmptyChild v then [] else [.value v]
  | .element tag props cs => [.element tag props cs]
  | .searchable v t l r => [.searchable v t l r]
/-- The rendered sequence of a list of children. -/
def flattenList {F : Type} : List (Node F) → List (Node F)
  | [] => []
  | n :: ns => flatten n ++ flattenList ns
end

/-- The rendered children of a host element. -/
def renderedChildren {F : Type} : Node F → List (Node F)
  | .element _ _ cs => flattenList cs
  | _ => []

/-- Whether a node is a host element with `className` equal to `c`. -/
def hasClass {F : Type} (c : String) : Node F → Bool
  | .element _ props _ =>
    props.any (fun p => match p with
      | (k, .val (.str s)) => k == "className" && s == c
      | _ => false)
  | _ => false

/-! ## The component `Searchable` -/

/-- The component `Searchable` (lines 32-62). -/
def Searchable {F : Type} (searchTerm searchValue : JSVal) (setIsLoading setSearchResults : F) :
    Node F :=
  .element "span" [("className", .val (.str "content"))]
    [.element "a"
      [("href", .val (.str "#")),
       ("onClick", .handler searchTerm searchValue setIsLoading setSearchResults)]
      [.value searchValue]]

/-! ## The component `Feature` -/

/-- The loop of `Array.prototype.map`: the callback gets each element and
its index, in order, and the first throw ends the loop. -/
def mapFrom {α β : Type} (cb : α → Nat → Except JSVal β) : Nat → List α → Except JSVal (List β)
  | _, [] => .ok []
  | ind, el :: rest =>
    match cb el ind with
    | .error e => .error e
    | .ok y =>
      match mapFrom cb (ind + 1) rest with
      | .error e => .error e
      | .ok ys => .ok (y :: ys)

/-- The method `items.map(cb)` of an array. -/
def arrayMap {α β : Type} (cb : α → Nat → Except JSVal β) (items : List α) :
    Except JSVal (List β) :=
  mapFrom cb 0 items

/-- The constant `searchFacts` (line 99). -/
def searchFacts : List String := ["culture", "technique", "medium"]

/-- The constant `otherFacts` (lines 100-109). -/
def otherFacts : List String :=
  ["description", "dated", "style", "dimensions", "department", "division", "contact",
   "creditline"]

/-- The callback of `searchFacts.map` (lines 122-143). -/
def searchFactItem {F : Type} (featuredResult : JSVal) (setIsLoading setSearchResults : F)
    (el : String) (ind : Nat) : Except JSVal (Node F) := do
  let key := toString ind ++ el
  let guard ← getProp featuredResult el
  if truthy guard then
    let searchValue ← getProp featuredResult el
    pure (.keyed key (.fragment [.fragment
      [.element "span"
        [("className", .val (.str "title")),
         ("style", .val (.obj [("textTransform", .str "capitalize")]))]
        [.value (.str el)],
       .searchable searchValue (.str el) setIsLoading setSearchResults]]))
  else
    pure (.keyed key (.fragment [.value .null]))

/-- The callback of `featuredResult.people.map` (lines 145-162). -/
def personItem {F : Type} (setIsLoading setSearchResults : F) (el : JSVal) (ind : Nat) :
    Except JSVal (Node F) := do
  let keyOperand ← getProp el "displayname"
  let key ← addIndex ind keyOperand
  let searchValue ← getProp el "displayname"
  pure (.keyed key (.fragment
    [.element "span"
      [("className", .val (.str "title")),
       ("style", .val (.obj [("textTransform", .str "capitalize")]))]
      [.value (.str "person")],
     .searchable searchValue (.str "displayname") setIsLoading setSearchResults]))

/-- The callback of `otherFacts.map` (lines 164-180). -/
def otherFactItem {F : Type} (featuredResult : JSVal) (el : String) (ind : Nat) :
    Except JSVal (Node F) := do
  let key := toString ind ++ el
  let guard ← getProp featuredResult el
  if truthy guard then
    let v ← getProp featuredResult el
    pure (.keyed key (.fragment [.fragment
      [.element "span"
        [("className", .val (.str "title")),
         ("style", .val (.obj [("textTransform", .str "capitalize")]))]
        [.value (.str el)],
       .element "span" [("className", .val (.str "content"))] [.value v]]]))
  else
    pure (.keyed key (.fragment [.value .null]))

/-- The callback of `featuredResult.images.map` (lines 184-192). -/
def imageItem {F : Type} (el : JSVal) (ind : Nat) : Except JSVal (Node F) := do
  let imageid ← getProp el "imageid"
  let idText ← toStringJS imageid
  let src ← getProp el "baseimageurl"
  let alt ← getProp el "alttext"
  pure (.keyed (toString ind ++ "-" ++ idText)
    (.element "img" [("src", .val src), ("alt", .val alt)] []))

/-- The expression `v ? v.map(cb) : null` (lines 144-163 and 183-193):
`null` for a falsy `v`, the mapped array for an array, and a `TypeError`
for any other truthy value, which has no method `map`. -/
def mapIfPresent {F : Type} (v : JSVal) (cb : JSVal → Nat → Except JSVal (Node F)) :
    Except JSVal (Node F) :=
  if truthy v then
    match v with
    | .arr items => do
      let mapped ← arrayMap cb items
      pure (.array mapped)
    | _ => .error (typeError "map is not a function")
  else
    pure (.value .null)

/-- The component `Feature` (lines 98-200). -/
def Feature {F : Type} (featuredResult : JSVal) (setIsLoading setSearchResults : F) :
    Except JSVal (Node F) :=
  if !truthy featuredResult then
    pure (.fragment [.element "main" [("id", .val (.str "feature"))] []])
  else do
    let title ← getProp featuredResult "title"
    let dated ← getProp featuredResult "dated"
    let searchItems ← arrayMap (searchFactItem featuredResult setIsLoading setSearchResults)
      searchFacts
    let people ← getProp featuredResult "people"
    let personItems ← mapIfPresent people (personItem setIsLoading setSearchResults)
    let otherItems ← arrayMap (otherFactItem featuredResult) otherFacts
    let images ← getProp featuredResult "images"
    let imageItems ← mapIfPresent images imageItem
    pure (.fragment
      [.element "main" [("id", .val (.str "feature"))]
        [.element "div" [("className", .val (.str "object-feature"))]
          [.element "header" []
            [.element "h3" [] [.value title], .element "h4" [] [.value dated]],
           .element "section" [("className", .val (.str "facts"))]
            [.array searchItems, personItems, .array otherItems],
           .element "section" [("className", .val (.str "photos"))] [imageItems]]]])

/-- The rendered children of the `facts` section of a tree returned by
`Feature`: panel, then detail block, then the section of class `facts`. -/
def factsSection {F : Type} (tree : Node F) : List (Node F) :=
  ((((flatten tree).flatMap renderedChildren).flatMap renderedChildren).filter
    (hasClass "facts")).flatMap renderedChildren

/-! ## The data model and the spec's description of the facts section -/

/-- Whether a value is `undefined` or `null`. -/
def isNullish : JSVal → Bool
  | .undefined => true
  | .null => true
  | _ => false

/-- Whether a value is a primitive (not an array, not an object). -/
def isPrimitive : JSVal → Bool
  | .arr _ => false
  | .obj _ => false
  | _ => true

/-- Whether the conversion of a value to a string returns. -/
def stringifies (v : JSVal) : Bool :=
  match toStringJS v with
  | .ok _ => true
  | .error _ => false

/-- The entries of a sequence (none if the value is not a sequence). -/
def entriesOf : JSVal → List JSVal
  | .arr items => items
  | _ => []

/-- What the callbacks of `people.map` and `images.map` need of an entry,
where `field` is the property that goes into the key: the entry is not
`undefined` or `null` and the conversion of `field` does not throw. -/
def keyable (field : String) (x : JSVal) : Bool :=
  !isNullish x && stringifies (peek x field)

/-- What the expression `v ? v.map(cb) : null` needs of `v`: `v` is falsy,
or an array of keyable entries. -/
def mappable (field : String) (v : JSVal) : Bool :=
  !truthy v || match v with
    | .arr items => items.all (keyable field)
    | _ => false

/-- The featured results on which `Feature` returns a tree: present, with
`people` and `images` falsy or arrays of keyable entries. -/
def returnsTree (featuredResult : JSVal) : Bool :=
  truthy featuredResult && mappable "displayname" (peek featuredResult "people") &&
    mappable "imageid" (peek featuredResult "images")

/-- The fields of a featured result that are laid out as text: `title`
and `dated` in the header, and the eleven guarded facts (`dated` is one of
them). -/
def displayedFields : List String :=
  ["title", "dated", "culture", "technique", "medium", "description", "style", "dimensions",
   "department", "division", "contact", "creditline"]

/-- The featured results that are rendered: `Feature` returns a tree, and
every value laid out as text or as an attribute is a primitive (React
refuses a plain object as a child). -/
def renderable (featuredResult : JSVal) : Bool :=
  returnsTree featuredResult &&
    displayedFields.all (fun k => isPrimitive (peek featuredResult k)) &&
    (entriesOf (peek featuredResult "people")).all
      (fun x => isPrimitive (peek x "displayname")) &&
    (entriesOf (peek featuredResult "images")).all
      (fun x => isPrimitive (peek x "baseimageurl") && isPrimitive (peek x "alttext"))

/-- The optional string fields of a FeaturedResult (section 3). -/
def stringFields : List String :=
  ["title", "dated", "description", "style", "dimensions", "department", "division",
   "contact", "creditline", "culture", "technique", "medium"]

/-- An optional string field: absent, or a string. -/
def isOptionalString : JSVal → Bool
  | .undefined => true
  | .str _ => true
  | _ => false

/-- A string. -/
def isString : JSVal → Bool
  | .str _ => true
  | _ => false

/-- A Person record of section 3: an object whose `displayname` is a string. -/
def isPerson (v : JSVal) : Bool :=
  match v with
  | .obj _ => isString (peek v "displayname")
  | _ => false

/-- An Image record of section 3: an object whose `baseimageurl` and
`alttext` are strings; section 3 gives no type to `imageid`. -/
def isImage (v : JSVal) : Bool :=
  match v with
  | .obj _ => isString (peek v "baseimageurl") && isString (peek v "alttext")
  | _ => false

/-- An optional sequence of records: absent, or an array of records. -/
def isOptionalSeq (p : JSVal → Bool) : JSVal → Bool
  | .undefined => true
  | .arr items => items.all p
  | _ => false

/-- The FeaturedResult objects of section 3 of the spec: an object whose
twelve string fields are each absent or a string, whose `people` is absent
or a sequence of Person records and whose `images` is absent or a sequence
of Image records. -/
def isFeaturedResult (v : JSVal) : Bool :=
  match v with
  | .obj _ =>
    stringFields.all (fun k => isOptionalString (peek v k)) &&
      isOptionalSeq isPerson (peek v "people") && isOptionalSeq isImage (peek v "images")
  | _ => false

/-- Whether the `imageid` of every image converts to a string without a
throw. -/
def imageIdsStringify (featuredResult : JSVal) : Bool :=
  (entriesOf (peek featuredResult "images")).all (fun x => stringifies (peek x "imageid"))

/-- The entries of `people`, in sequence order (none if `people` is
absent). -/
def peopleEntries (featuredResult : JSVal) : List JSVal :=
  entriesOf (peek featuredResult "people")

/-- The label of a fact as the spec describes it: a `span` of class
`title`, shown capitalized, whose text is the name. -/
def specLabel {F : Type} (name : String) : Node F :=
  .element "span"
    [("className", .val (.str "title")),
     ("style", .val (.obj [("textTransform", .str "capitalize")]))]
    [.value (.str name)]

/-- The value of a fact that is not searchable, as the spec describes it:
a `span` of class `content` holding the raw value as text. -/
def specPlainValue {F : Type} (v : JSVal) : Node F :=
  .element "span" [("className", .val (.str "content"))] [.value v]

/-- The facts of section 4.2 of the spec, as pairs of a label text and a
value node: the searchable facts with a truthy field, then the people,
then the other facts with a truthy field. -/
def specEntries {F : Type} (featuredResult : JSVal) (setIsLoading setSearchResults : F) :
    List (String × Node F) :=
  (["culture", "technique", "medium"].filter (fun name => truthy (peek featuredResult name))).map
      (fun name =>
        (name, .searchable (peek featuredResult name) (.str name) setIsLoading setSearchResults))
    ++ (peopleEntries featuredResult).map
      (fun person =>
        ("person",
         .searchable (peek person "displayname") (.str "displayname") setIsLoading
           setSearchResults))
    ++ (["description", "dated", "style", "dimensions", "department", "division", "contact",
          "creditline"].filter (fun name => truthy (peek featuredResult name))).map
      (fun name => (name, specPlainValue (peek featuredResult name)))

/-- The facts section as section 4.2 of the spec describes it: each fact
as its label followed by its value. -/
def specFacts {F : Type} (featuredResult : JSVal) (setIsLoading setSearchResults : F) :
    List (Node F) :=
  (specEntries featuredResult setIsLoading setSearchResults).flatMap
    (fun entry => [specLabel entry.1, entry.2])

/-- The text of a label: a host element of class `title` whose only child
is a string. -/
def labelText {F : Type} (n : Node F) : Option String :=
  match n with
  | .element _ _ [.value (.str t)] => if hasClass "title" n then some t else none
  | _ => none

/-- Reads a facts section as label/value pairs: every node at an even
position must be a label, and the node that follows it is its value. The
result is `none` when the section is not such a sequence of pairs. -/
def factEntries {F : Type} : List (Node F) → Option (List (String × Node F))
  | [] => some []
  | [_] => none
  | l :: v :: rest =>
    match labelText l, factEntries rest with
    | some t, some entries => some ((t, v) :: entries)
    | _, _ => none

/-- Whether a node is a `Searchable` whose `searchTerm` is `term`. -/
def isSearchableFor {F : Type} (term : String) : Node F → Bool
  | .searchable _ (.str t) _ _ => t == term
  | _ => false

/-- The `searchValue` of the `Searchable` elements of a list whose
`searchTerm` is `term`. -/
def searchValuesFor {F : Type} (term : String) (ns : List (Node F)) : List JSVal :=
  ns.filterMap (fun n => match n with
    | .searchable v (.str t) _ _ => if t == term then some v else none
    | _ => none)

/-- The method `toLowerCase` on the ASCII letters (other characters are
left as they are). -/
def toLowerCase (s : String) : String :=
  ⟨s.data.map Char.toLower⟩

/-! ## Sample inputs -/

/-- The spec's worked example (section 8, item 5). -/
def vase : JSVal :=
  .obj [("title", .str "Vase"), ("dated", .str "1900"), ("culture", .str "Ming"),
        ("people", .arr [.obj [("displayname", .str "Jane Doe")]]),
        ("images", .arr [.obj [("imageid", .num 1), ("baseimageurl", .str "http://x/1.jpg"),
                                ("alttext", .str "a vase")]])]

/-- A featured result with falsy facts and no `people`. -/
def sparseBowl : JSVal :=
  .obj [("title", .str "Bowl"), ("culture", .str "Ming"), ("technique", .str ""),
        ("medium", .null), ("description", .num 0), ("style", .str "")]

/-- A featured result whose `medium` has upper-case letters. -/
def oilPainting : JSVal :=
  .obj [("title", .str "Landscape"), ("medium", .str "Oil on Canvas")]

/-- A FeaturedResult whose only image has an `imageid` that is an object
with own, non-callable `toString` and `valueOf`. -/
def badImage : JSVal :=
  .obj [("title", .str "T"),
        ("images", .arr [.obj [("imageid", .obj [("toString", .num 1), ("valueOf", .num 1)]),
                                ("baseimageurl", .str "u"), ("alttext", .str "a")]])]

/-- A featured result whose only person has a `displayname` that is an
object with own, non-callable `toString` and `valueOf`. -/
def badPerson : JSVal :=
  .obj [("title", .str "T"),
        ("people", .arr [.obj [("displayname",
          .obj [("toString", .num 1), ("valueOf", .num 1)])]])]

example : replaceAll "Asian Art" " " "-" = "Asian-Art" := by decide
example : replaceAll "a  b c" " " "-" = "a--b-c" := by decide
example : replaceAll "abc" "" "-" = "-a-b-c-" := by decide
example : replaceAll "aaa" "aa" "b" = "ba" := by decide
example : normalize "Asian Art" = "Asian-Art" := by decide

example : (Feature vase 0 1).map factsSection =
    .ok [specLabel "culture", .searchable (.str "Ming") (.str "culture") 0 1,
         specLabel "person", .searchable (.str "Jane Doe") (.str "displayname") 0 1,
         specLabel "dated", specPlainValue (.str "1900")] := by rfl

example : (Feature sparseBowl 0 1).map factsSection =
    .ok [specLabel "culture", .searchable (.str "Ming") (.str "culture") 0 1] := by rfl

example : (Feature badImage 0 1).map factsSection =
    .error (typeError "Cannot convert object to primitive value") := by rfl

example : (Feature badPerson 0 1).map factsSection =
    .error (typeError "Cannot convert object to primitive value") := by rfl

example : (Feature vase 0 1).map (fun t => factEntries (factsSection t)) =
    .ok (some (specEntries vase 0 1)) := by rfl

/-! ## Lemmas on `replaceAll` and on the handler -/

theorem replaceAllGo_space_hyphen (l : List Char) :
    replaceAllGo [' '] ['-'] 0 l = l.map (fun c => if c = ' ' then '-' else c) := by
  induction l with
  | nil => rfl
  | cons c cs ih =>
    by_cases h : c = ' '
    · subst h
      simp [replaceAllGo, ih]
    · have h2 : ¬ ' ' = c := fun e => h e.symm
      simp [replaceAllGo, ih, h, h2]

theorem replaceAll_space_hyphen (s : String) : replaceAll s " " "-" = normalize s := by
  show (⟨replaceAllGo [' '] ['-'] 0 s.data⟩ : String) = normalize s
  rw [replaceAllGo_space_hyphen]
  rfl

theorem onClick_resolved (r searchTerm : JSVal) (s : String) :
    onClick (.resolved r) searchTerm (.str s) =
      ([.preventDefault, .setIsLoading true, .fetchCall searchTerm (.str (normalize s)),
        .fetchSettled (.resolved r), .setSearchResults r, .setIsLoading false], .normal) := by
  simp [onClick, onClickTry, callReplaceAll, replaceAll_space_hyphen]

theorem onClick_rejected (e searchTerm : JSVal) (s : String) :
    onClick (.rejected e) searchTerm (.str s) =
      ([.preventDefault, .setIsLoading true, .fetchCall searchTerm (.str (normalize s)),
        .fetchSettled (.rejected e), .consoleError e, .setIsLoading false], .normal) := by
  simp [onClick, onClickTry, callReplaceAll, replaceAll_space_hyphen]

theorem onClick_pending (searchTerm : JSVal) (s : String) :
    onClick .pending searchTerm (.str s) =
      ([.preventDefault, .setIsLoading true, .fetchCall searchTerm (.str (normalize s))],
        .suspended) := by
  simp [onClick, onClickTry, callReplaceAll, replaceAll_space_hyphen]

/-- A trace of the shape left by a settled activation satisfies the
ordering of section 4.1. -/
theorem loadingBracketsCall_of_shape (a b : JSVal) (st : Settlement) (x : Effect)
    (hx1 : ∀ c, x ≠ .setIsLoading c) (hx2 : ∀ c d, x ≠ .fetchCall c d)
    (hx3 : ∀ c, x ≠ .fetchSettled c) :
    LoadingBracketsCall
      [.preventDefault, .setIsLoading true, .fetchCall a b, .fetchSettled st, x,
        .setIsLoading false] := by
  refine ⟨1, 2, 3, 5, by decide, by decide, by decide, rfl, ⟨a, b, rfl⟩, ⟨st, rfl⟩, rfl,
    ?_, ?_, ?_⟩
  · intro n c h
    match n, h with
    | 0, h => simp at h
    | 1, h => simp at h; exact Or.inl ⟨rfl, h⟩
    | 2, h => simp at h
    | 3, h => simp at h
    | 4, h => simp at h; exact absurd h (hx1 c)
    | 5, h => simp at h; exact Or.inr ⟨rfl, h⟩
    | n + 6, h => simp at h
  · intro n c d h
    match n, h with
    | 0, h => simp at h
    | 1, h => simp at h
    | 2, _ => rfl
    | 3, h => simp at h
    | 4, h => simp at h; exact absurd h (hx2 c d)
    | 5, h => simp at h
    | n + 6, h => simp at h
  · intro n c h
    match n, h with
    | 0, h => simp at h
    | 1, h => simp at h
    | 2, h => simp at h
    | 3, _ => rfl
    | 4, h => simp at h; exact absurd h (hx3 c)
    | 5, h => simp at h
    | n + 6, h => simp at h

/-! ## The claims on the click handler -/

/-- C1: for every search term and every search value string, whether the
external call resolves or rejects, the trace of an activation has
`setIsLoading(true)` strictly before the invocation of the external call
and `setIsLoading(false)` strictly after the call has settled. -/
theorem C1_loading_brackets_external_call (searchTerm : JSVal) (s : String) :
    (∀ r, LoadingBracketsCall (onClick (.resolved r) searchTerm (.str s)).1) ∧
    (∀ e, LoadingBracketsCall (onClick (.rejected e) searchTerm (.str s)).1) := by
  constructor
  · intro r
    rw [onClick_resolved]
    exact loadingBracketsCall_of_shape _ _ _ _ (by simp) (by simp) (by simp)
  · intro e
    rw [onClick_rejected]
    exact loadingBracketsCall_of_shape _ _ _ _ (by simp) (by simp) (by simp)

/-- C2: if the external call resolves with `r`, `setSearchResults` is
called exactly once, with `r`; if it fails, `setSearchResults` is not
called during the activation. -/
theorem C2_setSearchResults_once_on_success (searchTerm : JSVal) (s : String) :
    (∀ r, searchResultsCalls (onClick (.resolved r) searchTerm (.str s)).1 = [r]) ∧
    (∀ e, searchResultsCalls (onClick (.rejected e) searchTerm (.str s)).1 = []) := by
  constructor
  · intro r
    rw [onClick_resolved]
    rfl
  · intro e
    rw [onClick_rejected]
    rfl

/-- C3: the handler invokes the external call once, with the search term
and the normalized search value; `replaceAll(" ", "-")` is the spec's
`normalize`, the value passed holds no space, and "Asian Art" becomes
"Asian-Art". -/
theorem C3_external_call_receives_normalized_value (outcome : Settlement)
    (searchTerm : JSVal) (s : String) :
    fetchCalls (onClick outcome searchTerm (.str s)).1 = [(searchTerm, .str (normalize s))] ∧
    replaceAll s " " "-" = normalize s ∧
    ' ' ∉ (normalize s).data ∧
    normalize "Asian Art" = "Asian-Art" := by
  refine ⟨?_, replaceAll_space_hyphen s, ?_, by decide⟩
  · cases outcome with
    | resolved r => rw [onClick_resolved]; rfl
    | rejected e => rw [onClick_rejected]; rfl
    | pending => rw [onClick_pending]; rfl
  · intro h
    simp only [normalize, List.mem_map] at h
    obtain ⟨c, _, hc⟩ := h
    by_cases h2 : c = ' '
    · rw [if_pos h2] at hc
      exact absurd hc (by decide)
    · rw [if_neg h2] at hc
      exact h2 hc

/-- C4: whether the external call succeeds or fails, and whatever the
search value is, `setIsLoading(false)` is called exactly once and is the
last effect of the activation. -/
theorem C4_setIsLoading_false_once_and_last (searchTerm searchValue : JSVal) :
    (∀ r, let t := (onClick (.resolved r) searchTerm searchValue).1
      (loadingCalls t).count false = 1 ∧ t.getLast? = some (.setIsLoading false)) ∧
    (∀ e, let t := (onClick (.rejected e) searchTerm searchValue).1
      (loadingCalls t).count false = 1 ∧ t.getLast? = some (.setIsLoading false)) := by
  constructor
  · intro r
    cases searchValue <;>
      simp [onClick, onClickTry, callReplaceAll, loadingCalls]
  · intro e
    cases searchValue <;>
      simp [onClick, onClickTry, callReplaceAll, loadingCalls]

/-- C5: when the external call fails with `e`, the handler ends normally,
`e` is logged exactly once, `setSearchResults` is not called, the calls of
`setIsLoading` are `true` then `false`, and the parent state keeps its
search results and ends with the loading flag cleared. -/
theorem C5_failure_is_logged_not_propagated (e searchTerm : JSVal) (s : String) :
    onClick (.rejected e) searchTerm (.str s) =
      ([.preventDefault, .setIsLoading true, .fetchCall searchTerm (.str (normalize s)),
        .fetchSettled (.rejected e), .consoleError e, .setIsLoading false], .normal) ∧
    errorLogs (onClick (.rejected e) searchTerm (.str s)).1 = [e] ∧
    searchResultsCalls (onClick (.rejected e) searchTerm (.str s)).1 = [] ∧
    loadingCalls (onClick (.rejected e) searchTerm (.str s)).1 = [true, false] ∧
    (∀ st : ParentState,
      (applyTrace st (onClick (.rejected e) searchTerm (.str s)).1).searchResults
        = st.searchResults ∧
      (applyTrace st (onClick (.rejected e) searchTerm (.str s)).1).isLoading = false) := by
  rw [onClick_rejected]
  exact ⟨rfl, rfl, rfl, rfl, fun _ => ⟨rfl, rfl⟩⟩

/-! ## Lemmas on `Feature` -/

theorem getProp_of_not_nullish (v : JSVal) (k : String) (h : isNullish v = false) :
    getProp v k = .ok (peek v k) := by
  cases v <;> simp_all [isNullish, getProp, peek]

theorem isNullish_of_truthy (v : JSVal) (h : truthy v = true) : isNullish v = false := by
  cases v <;> simp_all [isNullish, truthy]

theorem getProp_of_truthy (v : JSVal) (k : String) (h : truthy v = true) :
    getProp v k = .ok (peek v k) :=
  getProp_of_not_nullish v k (isNullish_of_truthy v h)

theorem ok_bind {ε α β : Type} (a : α) (f : α → Except ε β) :
    (Except.ok a : Except ε α) >>= f = f a := rfl

theorem exists_of_map_eq_ok {ε α β : Type} (x : Except ε α) (f : α → β) (b : β)
    (h : x.map f = .ok b) : ∃ a, x = .ok a ∧ f a = b := by
  cases x with
  | error e => simp [Except.map] at h
  | ok a =>
    simp only [Except.map, Except.ok.injEq] at h
    exact ⟨a, rfl, h⟩

theorem mapFrom_flatten {α F : Type} (cb : α → Nat → Except JSVal (Node F))
    (h : α → List (Node F)) (xs : List α)
    (hcb : ∀ x ∈ xs, ∀ i, (cb x i).map flatten = .ok (h x)) (i : Nat) :
    ∃ ys, mapFrom cb i xs = .ok ys ∧ flattenList ys = xs.flatMap h := by
  induction xs generalizing i with
  | nil => exact ⟨[], rfl, rfl⟩
  | cons x xs ih =>
    obtain ⟨y, hy, fy⟩ := exists_of_map_eq_ok _ _ _ (hcb x (List.mem_cons_self x xs) i)
    obtain ⟨ys, hys, fys⟩ := ih (fun z hz => hcb z (List.mem_cons_of_mem x hz)) (i + 1)
    refine ⟨y :: ys, ?_, ?_⟩
    · simp only [mapFrom, hy, hys]
    · simp only [flattenList, fy, fys, List.flatMap_cons]

theorem searchFactItem_flatten {F : Type} (fr : JSVal) (sl sr : F) (el : String) (i : Nat)
    (h : truthy fr = true) :
    (searchFactItem fr sl sr el i).map flatten =
      .ok (if truthy (peek fr el) = true then
        [specLabel el, .searchable (peek fr el) (.str el) sl sr] else []) := by
  unfold searchFactItem
  rw [getProp_of_truthy fr el h]
  by_cases ht : truthy (peek fr el) = true
  · simp [ok_bind, ht, pure, Except.pure, Except.map, flatten, flattenList, specLabel]
  · simp [ok_bind, ht, pure, Except.pure, Except.map, flatten, flattenList, isEmptyChild]

theorem otherFactItem_flatten {F : Type} (fr : JSVal) (el : String) (i : Nat)
    (h : truthy fr = true) :
    (otherFactItem fr el i : Except JSVal (Node F)).map flatten =
      .ok (if truthy (peek fr el) = true then
        [specLabel el, specPlainValue (peek fr el)] else []) := by
  unfold otherFactItem
  rw [getProp_of_truthy fr el h]
  by_cases ht : truthy (peek fr el) = true
  · simp [ok_bind, ht, pure, Except.pure, Except.map, flatten, flattenList, specLabel,
      specPlainValue]
  · simp [ok_bind, ht, pure, Except.pure, Except.map, flatten, flattenList, isEmptyChild]

theorem toStringJS_of_stringifies (v : JSVal) (h : stringifies v = true) :
    ∃ s, toStringJS v = .ok s := by
  unfold stringifies at h
  cases hs : toStringJS v with
  | ok s => exact ⟨s, rfl⟩
  | error e =>
    rw [hs] at h
    simp at h

theorem addIndex_of_stringifies (i : Nat) (v : JSVal) (h : stringifies v = true) :
    ∃ key, addIndex i v = .ok key := by
  cases v with
  | arr items =>
    obtain ⟨s, hs⟩ := toStringJS_of_stringifies _ h
    exact ⟨toString i ++ s, by simp only [addIndex, hs]⟩
  | obj props =>
    obtain ⟨s, hs⟩ := toStringJS_of_stringifies _ h
    exact ⟨toString i ++ s, by simp only [addIndex, hs]⟩
  | _ => exact ⟨_, rfl⟩

theorem personItem_flatten {F : Type} (sl sr : F) (el : JSVal) (i : Nat)
    (h : keyable "displayname" el = true) :
    (personItem sl sr el i).map flatten =
      .ok [specLabel "person",
        .searchable (peek el "displayname") (.str "displayname") sl sr] := by
  simp only [keyable, Bool.and_eq_true, Bool.not_eq_true'] at h
  obtain ⟨key, hkey⟩ := addIndex_of_stringifies i _ h.2
  unfold personItem
  rw [getProp_of_not_nullish el _ h.1]
  simp [ok_bind, hkey, pure, Except.pure, Except.map, flatten, flattenList, specLabel]

theorem imageItem_flatten {F : Type} (el : JSVal) (i : Nat)
    (h : keyable "imageid" el = true) :
    (imageItem el i : Except JSVal (Node F)).map flatten =
      .ok [.element "img"
        [("src", .val (peek el "baseimageurl")), ("alt", .val (peek el "alttext"))] []] := by
  simp only [keyable, Bool.and_eq_true, Bool.not_eq_true'] at h
  obtain ⟨s, hs⟩ := toStringJS_of_stringifies _ h.2
  unfold imageItem
  rw [getProp_of_not_nullish el _ h.1, getProp_of_not_nullish el _ h.1,
    getProp_of_not_nullish el _ h.1]
  simp [ok_bind, hs, pure, Except.pure, Except.map, flatten]

theorem mapIfPresent_flatten {F : Type} (field : String) (v : JSVal)
    (cb : JSVal → Nat → Except JSVal (Node F)) (h : JSVal → List (Node F))
    (hv : mappable field v = true)
    (hcb : ∀ x, keyable field x = true → ∀ i, (cb x i).map flatten = .ok (h x)) :
    ∃ node, mapIfPresent v cb = .ok node ∧ flatten node = (entriesOf v).flatMap h := by
  cases v with
  | arr items =>
    have hall : ∀ x ∈ items, ∀ i, (cb x i).map flatten = .ok (h x) := by
      intro x hx
      apply hcb
      simp only [mappable, truthy, Bool.not_true, Bool.false_or, List.all_eq_true] at hv
      exact hv x hx
    obtain ⟨ys, hys, fys⟩ := mapFrom_flatten cb h items hall 0
    refine ⟨.array ys, ?_, ?_⟩
    · show (arrayMap cb items >>= fun mapped => pure (Node.array mapped)) = _
      unfold arrayMap
      rw [hys]
      rfl
    · simp only [flatten, fys, entriesOf]
  | undefined => exact ⟨.value .null, rfl, rfl⟩
  | null => exact ⟨.value .null, rfl, rfl⟩
  | bool b =>
    cases b
    · exact ⟨.value .null, rfl, rfl⟩
    · simp [mappable, truthy] at hv
  | num n =>
    by_cases hn : n = 0
    · subst hn
      exact ⟨.value .null, rfl, rfl⟩
    · simp [mappable, truthy, hn] at hv
  | str s =>
    by_cases hs : s.data = []
    · refine ⟨.value .null, ?_, rfl⟩
      simp [mapIfPresent, truthy, hs, pure, Except.pure]
    · simp [mappable, truthy, hs] at hv
  | obj props => simp [mappable, truthy] at hv

theorem flatMap_guarded {F : Type} (names : List String) (p : String → Bool)
    (v : String → Node F) :
    names.flatMap (fun n => if p n = true then [specLabel n, v n] else []) =
      ((names.filter p).map (fun n => (n, v n))).flatMap
        (fun entry => [specLabel entry.1, entry.2]) := by
  induction names with
  | nil => rfl
  | cons n ns ih =>
    by_cases hp : p n = true
    · simp [List.filter_cons, hp, ih]
    · simp [List.filter_cons, hp, ih]

theorem flatMap_labelled {F : Type} (xs : List JSVal) (name : String) (v : JSVal → Node F) :
    xs.flatMap (fun x => [specLabel name, v x]) =
      (xs.map (fun x => (name, v x))).flatMap (fun entry => [specLabel entry.1, entry.2]) := by
  induction xs with
  | nil => rfl
  | cons x xs ih => simp [ih]

/-- On a featured result accepted by `returnsTree`, `Feature` returns a
tree whose facts section is the one the spec describes. -/
theorem Feature_factsSection {F : Type} (fr : JSVal) (sl sr : F)
    (h : returnsTree fr = true) :
    ∃ tree, Feature fr sl sr = .ok tree ∧ factsSection tree = specFacts fr sl sr := by
  simp only [returnsTree, Bool.and_eq_true] at h
  obtain ⟨⟨ht, hp⟩, hi⟩ := h
  obtain ⟨ys1, h1, f1⟩ := mapFrom_flatten (searchFactItem fr sl sr) _ searchFacts
    (fun el _ i => searchFactItem_flatten fr sl sr el i ht) 0
  obtain ⟨ys3, h3, f3⟩ := mapFrom_flatten (otherFactItem fr : String → Nat → Except JSVal (Node F))
    _ otherFacts (fun el _ i => otherFactItem_flatten fr el i ht) 0
  obtain ⟨n2, h2, f2⟩ := mapIfPresent_flatten "displayname" (peek fr "people")
    (personItem sl sr) _ hp (fun x hx i => personItem_flatten sl sr x i hx)
  obtain ⟨n4, h4, _⟩ := mapIfPresent_flatten "imageid" (peek fr "images")
    (imageItem : JSVal → Nat → Except JSVal (Node F)) _ hi
    (fun x hx i => imageItem_flatten x i hx)
  have hF : Feature fr sl sr = .ok
      (Node.fragment
        [.element "main" [("id", .val (.str "feature"))]
          [.element "div" [("className", .val (.str "object-feature"))]
            [.element "header" []
              [.element "h3" [] [.value (peek fr "title")],
               .element "h4" [] [.value (peek fr "dated")]],
             .element "section" [("className", .val (.str "facts"))]
              [.array ys1, n2, .array ys3],
             .element "section" [("className", .val (.str "photos"))] [n4]]]]) := by
    unfold Feature
    rw [if_neg (by simp [ht])]
    rw [getProp_of_truthy fr _ ht, getProp_of_truthy fr _ ht, getProp_of_truthy fr _ ht,
      getProp_of_truthy fr _ ht]
    unfold arrayMap
    rw [h1, h3]
    simp only [ok_bind]
    rw [h2, h4]
    rfl
  refine ⟨_, hF, ?_⟩
  have hs : factsSection
      (Node.fragment
        [.element "main" [("id", .val (.str "feature"))]
          [.element "div" [("className", .val (.str "object-feature"))]
            [.element "header" []
              [.element "h3" [] [.value (peek fr "title")],
               .element "h4" [] [.value (peek fr "dated")]],
             .element "section" [("className", .val (.str "facts"))]
              [.array ys1, n2, .array ys3],
             .element "section" [("className", .val (.str "photos"))] [n4]]]]) =
      flattenList ys1 ++ (flatten n2 ++ flattenList ys3) := by
    simp [factsSection, flatten, flattenList, renderedChildren, hasClass]
  rw [hs, f1, f2, f3, flatMap_guarded, flatMap_guarded, flatMap_labelled]
  simp [specFacts, specEntries, peopleEntries, searchFacts, otherFacts]

theorem returnsTree_of_renderable (fr : JSVal) (h : renderable fr = true) :
    returnsTree fr = true := by
  simp only [renderable, Bool.and_eq_true] at h
  exact h.1.1.1

theorem labelText_specLabel {F : Type} (name : String) :
    labelText (specLabel name : Node F) = some name := by
  simp [labelText, specLabel, hasClass]

theorem labelText_specPlainValue {F : Type} (v : JSVal) :
    labelText (specPlainValue v : Node F) = none := by
  cases v <;> simp [labelText, specPlainValue, hasClass]

theorem factEntries_flatMap {F : Type} (entries : List (String × Node F)) :
    factEntries (entries.flatMap (fun entry => [specLabel entry.1, entry.2])) =
      some entries := by
  induction entries with
  | nil => rfl
  | cons e es ih =>
    have hc : (e :: es).flatMap (fun entry => [specLabel entry.1, entry.2]) =
        specLabel e.1 :: e.2 :: es.flatMap (fun entry => [specLabel entry.1, entry.2]) := by
      simp
    rw [hc, factEntries, labelText_specLabel, ih]

theorem mem_specEntries {F : Type} (fr : JSVal) (sl sr : F) (e : String × Node F)
    (h : e ∈ specEntries fr sl sr) :
    (∃ name ∈ searchFacts, truthy (peek fr name) = true ∧
        e = (name, .searchable (peek fr name) (.str name) sl sr)) ∨
      (∃ person ∈ peopleEntries fr,
        e = ("person", .searchable (peek person "displayname") (.str "displayname") sl sr)) ∨
      (∃ name ∈ otherFacts, truthy (peek fr name) = true ∧
        e = (name, specPlainValue (peek fr name))) := by
  simp only [specEntries, List.mem_append, List.mem_map, List.mem_filter] at h
  rcases h with (⟨name, ⟨hm, ht⟩, he⟩ | ⟨person, hm, he⟩) | ⟨name, ⟨hm, ht⟩, he⟩
  · exact Or.inl ⟨name, hm, ht, he.symm⟩
  · exact Or.inr (Or.inl ⟨person, hm, he.symm⟩)
  · exact Or.inr (Or.inr ⟨name, hm, ht, he.symm⟩)

theorem peopleEntries_of_falsy (fr : JSVal) (h : truthy (peek fr "people") = false) :
    peopleEntries fr = [] := by
  unfold peopleEntries
  cases hp : peek fr "people" <;> simp_all [truthy, entriesOf]

theorem truthy_people_of_mem (fr person : JSVal) (h : person ∈ peopleEntries fr) :
    truthy (peek fr "people") = true := by
  unfold peopleEntries at h
  cases hp : peek fr "people" <;> simp_all [truthy, entriesOf]

theorem stringifies_of_isString (v : JSVal) (h : isString v = true) : stringifies v = true := by
  cases v <;> simp_all [isString, stringifies, toStringJS]

theorem isPrimitive_of_isString (v : JSVal) (h : isString v = true) : isPrimitive v = true := by
  cases v <;> simp_all [isString, isPrimitive]

theorem isPrimitive_of_isOptionalString (v : JSVal) (h : isOptionalString v = true) :
    isPrimitive v = true := by
  cases v <;> simp_all [isOptionalString, isPrimitive]

theorem mappable_of_isOptionalSeq (field : String) (p : JSVal → Bool) (v : JSVal)
    (hp : ∀ x ∈ entriesOf v, p x = true → keyable field x = true)
    (h : isOptionalSeq p v = true) : mappable field v = true := by
  cases v with
  | arr items =>
    simp only [isOptionalSeq, List.all_eq_true] at h
    simp only [mappable, truthy, Bool.not_true, Bool.false_or, List.all_eq_true]
    exact fun x hx => hp x hx (h x hx)
  | undefined => rfl
  | _ => simp [isOptionalSeq] at h

theorem keyable_of_isPerson (x : JSVal) (h : isPerson x = true) :
    keyable "displayname" x = true := by
  cases x with
  | obj props =>
    simp only [isPerson] at h
    simp only [keyable, isNullish, Bool.not_false, Bool.true_and]
    exact stringifies_of_isString _ h
  | _ => simp [isPerson] at h

theorem keyable_of_isImage (x : JSVal) (h : isImage x = true)
    (hid : stringifies (peek x "imageid") = true) : keyable "imageid" x = true := by
  cases x with
  | obj props => simp only [keyable, isNullish, Bool.not_false, Bool.true_and, hid]
  | _ => simp [isImage] at h

/-- Every FeaturedResult of the data model whose image ids convert to
strings is accepted by `returnsTree`. -/
theorem returnsTree_of_isFeaturedResult (fr : JSVal) (h : isFeaturedResult fr = true)
    (hid : imageIdsStringify fr = true) : returnsTree fr = true := by
  cases fr with
  | obj props =>
    simp only [isFeaturedResult, Bool.and_eq_true] at h
    simp only [imageIdsStringify, List.all_eq_true] at hid
    simp only [returnsTree, Bool.and_eq_true]
    exact ⟨⟨rfl, mappable_of_isOptionalSeq _ _ _ (fun x _ hx => keyable_of_isPerson x hx) h.1.2⟩,
      mappable_of_isOptionalSeq _ _ _ (fun x hm hx => keyable_of_isImage x hx (hid x hm)) h.2⟩
  | _ => simp [isFeaturedResult] at h

/-- Every FeaturedResult of the data model whose image ids convert to
strings is renderable. -/
theorem renderable_of_isFeaturedResult (fr : JSVal) (h : isFeaturedResult fr = true)
    (hid : imageIdsStringify fr = true) : renderable fr = true := by
  have hr := returnsTree_of_isFeaturedResult fr h hid
  cases fr with
  | obj props =>
    simp only [isFeaturedResult, Bool.and_eq_true, List.all_eq_true] at h
    obtain ⟨⟨hf, hp⟩, hi⟩ := h
    have hsub : ∀ k ∈ displayedFields, k ∈ stringFields := by decide
    simp only [renderable, Bool.and_eq_true, List.all_eq_true]
    refine ⟨⟨⟨hr, fun k hk => isPrimitive_of_isOptionalString _ (hf k (hsub k hk))⟩, ?_⟩, ?_⟩
    · intro x hx
      cases hv : peek (JSVal.obj props) "people" with
      | arr items =>
        rw [hv] at hp hx
        simp only [isOptionalSeq, List.all_eq_true] at hp
        have hx2 := hp x hx
        cases x with
        | obj ps => exact isPrimitive_of_isString _ hx2
        | _ => simp [isPerson] at hx2
      | _ => rw [hv] at hx; simp [entriesOf] at hx
    · intro x hx
      cases hv : peek (JSVal.obj props) "images" with
      | arr items =>
        rw [hv] at hi hx
        simp only [isOptionalSeq, List.all_eq_true] at hi
        have hx2 := hi x hx
        cases x with
        | obj ps =>
          simp only [isImage, Bool.and_eq_true] at hx2
          exact ⟨isPrimitive_of_isString _ hx2.1, isPrimitive_of_isString _ hx2.2⟩
        | _ => simp [isImage] at hx2
      | _ => rw [hv] at hx; simp [entriesOf] at hx
  | _ => simp [isFeaturedResult] at h

/-! ## The claims on `Feature` -/

/-- C6: for every present (renderable) featured result, the facts section
rendered by `Feature` is exactly, in this order, the searchable facts
`culture`, `technique`, `medium` with a truthy field (a label showing the
name, then a `Searchable` on the field name and value), the people in
sequence order (label "person", then a `Searchable` on "displayname" and
the entry's display name), and the other facts with a truthy field (a
label showing the name, then the raw value as text); read as label/value
pairs the section is the list of the spec; every `Searchable` gets the two
setters given to `Feature`. -/
theorem C6_facts_section_is_spec_order {F : Type} (fr : JSVal) (sl sr : F)
    (h : renderable fr = true) :
    ∃ tree, Feature fr sl sr = .ok tree ∧ factsSection tree = specFacts fr sl sr ∧
      factEntries (factsSection tree) = some (specEntries fr sl sr) ∧
      ∀ v t l r, Node.searchable v t l r ∈ factsSection tree → l = sl ∧ r = sr := by
  obtain ⟨tree, hF, hs⟩ := Feature_factsSection fr sl sr (returnsTree_of_renderable fr h)
  refine ⟨tree, hF, hs, ?_, ?_⟩
  · rw [hs]
    exact factEntries_flatMap _
  · intro v t l r hn
    rw [hs] at hn
    simp only [specFacts, List.mem_flatMap, List.mem_cons, List.mem_singleton,
      List.not_mem_nil, or_false] at hn
    obtain ⟨e, he, hn | hn⟩ := hn
    · simp [specLabel] at hn
    · rcases mem_specEntries fr sl sr e he with ⟨name, _, _, rfl⟩ | ⟨person, _, rfl⟩ |
        ⟨name, _, _, rfl⟩
      · simp only [Node.searchable.injEq] at hn
        exact ⟨hn.2.2.1, hn.2.2.2⟩
      · simp only [Node.searchable.injEq] at hn
        exact ⟨hn.2.2.1, hn.2.2.2⟩
      · simp [specPlainValue] at hn

/-- C6 at the spec's worked example. -/
theorem C6_facts_section_is_spec_order_witness :
    renderable vase = true ∧
    ∃ tree, Feature vase (0 : Nat) (1 : Nat) = .ok tree ∧
      factsSection tree = specFacts vase 0 1 ∧
      factEntries (factsSection tree) = some (specEntries vase 0 1) ∧
      ∀ v t l r, Node.searchable v t l r ∈ factsSection tree → l = 0 ∧ r = 1 :=
  ⟨by decide, C6_facts_section_is_spec_order vase 0 1 (by decide)⟩

/-- C7: for an absent featured result (`undefined` or `null`) `Feature`
renders exactly the empty panel: one `main` element with id "feature" and
no children. -/
theorem C7_absent_renders_empty_panel {F : Type} (sl sr : F) :
    (∃ tree, Feature .undefined sl sr = .ok tree ∧
      flatten tree = [.element "main" [("id", .val (.str "feature"))] []]) ∧
    (∃ tree, Feature .null sl sr = .ok tree ∧
      flatten tree = [.element "main" [("id", .val (.str "feature"))] []]) :=
  ⟨⟨_, rfl, rfl⟩, ⟨_, rfl, rfl⟩⟩

/-- C8: for every present (renderable) featured result the facts section
is a sequence of label/value pairs, no value being itself a label, and
every pair is the label and value of a guarded fact whose field is truthy
or of an entry of a present `people`. Hence for every guarded fact name
`f` whose field is absent or falsy no pair has the label `f` (the section
has no label `f` and no value for `f`) and no value is a `Searchable` on
`f`; and if `people` is absent (or falsy) no pair has the label "person"
and no value is a `Searchable` on "displayname". -/
theorem C8_falsy_fields_are_not_rendered {F : Type} (fr : JSVal) (sl sr : F)
    (h : renderable fr = true) :
    ∃ tree entries, Feature fr sl sr = .ok tree ∧
      factEntries (factsSection tree) = some entries ∧
      (∀ e ∈ entries, labelText e.2 = none) ∧
      (∀ e ∈ entries,
        (∃ name ∈ searchFacts, truthy (peek fr name) = true ∧
          e = (name, .searchable (peek fr name) (.str name) sl sr)) ∨
        (∃ person ∈ peopleEntries fr, truthy (peek fr "people") = true ∧
          e = ("person",
            .searchable (peek person "displayname") (.str "displayname") sl sr)) ∨
        (∃ name ∈ otherFacts, truthy (peek fr name) = true ∧
          e = (name, specPlainValue (peek fr name)))) ∧
      (∀ f ∈ searchFacts ++ otherFacts, truthy (peek fr f) = false →
        ∀ e ∈ entries, e.1 ≠ f ∧ isSearchableFor f e.2 = false) ∧
      (truthy (peek fr "people") = false →
        ∀ e ∈ entries, e.1 ≠ "person" ∧ isSearchableFor "displayname" e.2 = false) := by
  obtain ⟨tree, hF, hs⟩ := Feature_factsSection fr sl sr (returnsTree_of_renderable fr h)
  refine ⟨tree, specEntries fr sl sr, hF, ?_, ?_, ?_, ?_, ?_⟩
  · rw [hs]
    exact factEntries_flatMap _
  · intro e he
    rcases mem_specEntries fr sl sr e he with ⟨name, _, _, rfl⟩ | ⟨person, _, rfl⟩ |
      ⟨name, _, _, rfl⟩
    · rfl
    · rfl
    · exact labelText_specPlainValue _
  · intro e he
    rcases mem_specEntries fr sl sr e he with ⟨name, hm, ht, rfl⟩ | ⟨person, hm, rfl⟩ |
      ⟨name, hm, ht, rfl⟩
    · exact Or.inl ⟨name, hm, ht, rfl⟩
    · exact Or.inr (Or.inl ⟨person, hm, truthy_people_of_mem fr person hm, rfl⟩)
    · exact Or.inr (Or.inr ⟨name, hm, ht, rfl⟩)
  · intro f hf hfalsy e he
    have hperson : "person" ≠ f ∧ ("displayname" == f) = false := by
      simp only [searchFacts, otherFacts, List.cons_append, List.nil_append, List.mem_cons,
        List.mem_singleton, List.not_mem_nil, or_false] at hf
      rcases hf with h | h | h | h | h | h | h | h | h | h | h <;> subst h <;> decide
    rcases mem_specEntries fr sl sr e he with ⟨name, _, ht, rfl⟩ | ⟨person, _, rfl⟩ |
      ⟨name, _, ht, rfl⟩
    · have hne : name ≠ f := by
        intro e
        rw [e, hfalsy] at ht
        exact absurd ht (by decide)
      exact ⟨hne, by simp only [isSearchableFor, beq_eq_false_iff_ne.mpr hne]⟩
    · exact ⟨hperson.1, by simp only [isSearchableFor, hperson.2]⟩
    · have hne : name ≠ f := by
        intro e
        rw [e, hfalsy] at ht
        exact absurd ht (by decide)
      exact ⟨hne, rfl⟩
  · intro hfalsy e he
    have hnames : ∀ name ∈ searchFacts ++ otherFacts,
        name ≠ "person" ∧ (name == "displayname") = false := by decide
    rcases mem_specEntries fr sl sr e he with ⟨name, hname, _, rfl⟩ | ⟨person, hm, rfl⟩ |
      ⟨name, hname, _, rfl⟩
    · have hn := hnames name (List.mem_append_left _ hname)
      exact ⟨hn.1, by simp only [isSearchableFor, hn.2]⟩
    · rw [peopleEntries_of_falsy fr hfalsy] at hm
      simp at hm
    · exact ⟨(hnames name (List.mem_append_right _ hname)).1, rfl⟩

/-- C8 at a featured result with falsy `technique`, `medium`,
`description` and `style`, no other fact but `culture`, and no `people`. -/
theorem C8_falsy_fields_are_not_rendered_witness :
    renderable sparseBowl = true ∧
    ∃ tree entries, Feature sparseBowl (0 : Nat) (1 : Nat) = .ok tree ∧
      factEntries (factsSection tree) = some entries ∧
      (∀ e ∈ entries, labelText e.2 = none) ∧
      (∀ e ∈ entries,
        (∃ name ∈ searchFacts, truthy (peek sparseBowl name) = true ∧
          e = (name, .searchable (peek sparseBowl name) (.str name) 0 1)) ∨
        (∃ person ∈ peopleEntries sparseBowl, truthy (peek sparseBowl "people") = true ∧
          e = ("person",
            .searchable (peek person "displayname") (.str "displayname") 0 1)) ∨
        (∃ name ∈ otherFacts, truthy (peek sparseBowl name) = true ∧
          e = (name, specPlainValue (peek sparseBowl name)))) ∧
      (∀ f ∈ searchFacts ++ otherFacts, truthy (peek sparseBowl f) = false →
        ∀ e ∈ entries, e.1 ≠ f ∧ isSearchableFor f e.2 = false) ∧
      (truthy (peek sparseBowl "people") = false →
        ∀ e ∈ entries, e.1 ≠ "person" ∧ isSearchableFor "displayname" e.2 = false) :=
  ⟨by decide, C8_falsy_fields_are_not_rendered sparseBowl 0 1 (by decide)⟩

/-- C9, as stated, fails: `badImage` is a FeaturedResult of the data model
(section 3 gives no type to `imageid`), and `Feature` throws on it while
it builds the key of the image. -/
theorem C9_counterexample_imageid_object :
    isFeaturedResult badImage = true ∧
    ¬ ∃ tree, Feature badImage (0 : Nat) (1 : Nat) = .ok tree := by
  refine ⟨by decide, ?_⟩
  rintro ⟨tree, h⟩
  have herr : Feature badImage (0 : Nat) (1 : Nat) =
      .error (typeError "Cannot convert object to primitive value") := rfl
  rw [herr] at h
  cases h

/-- C9, amended: for an absent featured result and for every
FeaturedResult object of section 3 (any optional field absent, `people`
and `images` sequences of records when present) in which the `imageid` of
every image converts to a string without a throw, `Feature` returns a tree
and does not throw. -/
theorem C9_render_total_when_imageids_stringify {F : Type} (fr : JSVal) (sl sr : F)
    (h : fr = .undefined ∨ fr = .null ∨
      (isFeaturedResult fr = true ∧ imageIdsStringify fr = true)) :
    ∃ tree, Feature fr sl sr = .ok tree := by
  rcases h with h | h | h
  · subst h
    exact ⟨_, rfl⟩
  · subst h
    exact ⟨_, rfl⟩
  · obtain ⟨tree, hF, _⟩ :=
      Feature_factsSection fr sl sr (returnsTree_of_isFeaturedResult fr h.1 h.2)
    exact ⟨tree, hF⟩

/-- C9, amended, at the spec's worked example. -/
theorem C9_render_total_when_imageids_stringify_witness :
    (vase = .undefined ∨ vase = .null ∨
      (isFeaturedResult vase = true ∧ imageIdsStringify vase = true)) ∧
    ∃ tree, Feature vase (0 : Nat) (1 : Nat) = .ok tree :=
  ⟨Or.inr (Or.inr ⟨by decide, by decide⟩),
    C9_render_total_when_imageids_stringify vase 0 1 (Or.inr (Or.inr ⟨by decide, by decide⟩))⟩

/-- C10: on a featured result whose `medium` is "Oil on Canvas", the
`Searchable` for `medium` gets the raw "Oil on Canvas", which is not its
lower-cased form "oil on canvas". -/
theorem C10_medium_is_not_lower_cased :
    (Feature oilPainting (0 : Nat) (1 : Nat)).map
        (fun tree => searchValuesFor "medium" (factsSection tree)) =
      .ok [.str "Oil on Canvas"] ∧
    toLowerCase "Oil on Canvas" = "oil on canvas" ∧
    "Oil on Canvas" ≠ toLowerCase "Oil on Canvas" :=
  ⟨rfl, by decide, by decide⟩

end ArtCollector
